import Mathlib

/-!
Verification of the Schema-Driven Replication & Snapshot Engine of the
BCA-App-controller repository (`src/sync.py`, `src/bca_data_extractor.py`).

Rows are modelled as ordered lists of text values, positionally aligned
with the introspected table schema; tables are lists of rows; the
PostgreSQL destination of `SyncTab.sync_to_postgresql` is modelled by its
two destination tables.  Shell commands (`adb`) are modelled by their
observable outcome (success flag and produced data).
-/

namespace BCA

/-- A row: ordered sequence of text column values, aligned positionally
with the table's column list (`PRAGMA table_info` order). -/
abbrev Row := List String

/-- Value of a row at the primary-key column position (`none` when the
row is shorter than the key position). -/
def rowKey (keyIdx : Nat) (r : Row) : Option String := r[keyIdx]?

/-- The row stored after `INSERT ... ON CONFLICT (key) DO UPDATE SET
c = EXCLUDED.c` fires its update branch (src/sync.py lines 478-483 and
501-506): every non-key column takes the incoming row's value, the key
column keeps the existing row's value (which, on conflict, equals the
incoming key). -/
def mergeRow (keyIdx : Nat) (old incoming : Row) : Row :=
  incoming.mapIdx fun i v => if i = keyIdx then old.getD i v else v

/-- One `INSERT ... ON CONFLICT (key) DO UPDATE` of row `r` into the
destination table: `execute_batch` (src/sync.py lines 476-485) runs the
statement once per staging row.  If some destination row carries `r`'s
key the conflict branch overwrites its non-key columns, otherwise `r`
is inserted. -/
def upsertRow (keyIdx : Nat) (dest : List Row) (r : Row) : List Row :=
  if ∃ d ∈ dest, rowKey keyIdx d = rowKey keyIdx r then
    dest.map fun d =>
      if rowKey keyIdx d = rowKey keyIdx r then mergeRow keyIdx d r else d
  else dest ++ [r]

/-- The whole batched upsert of all staging rows of one table into its
destination table, in staging order (src/sync.py lines 474-485 for
`DWJJOB`/`jobs`, 497-508 for `DWVVEH`/`vehicles`). -/
def replicate (keyIdx : Nat) (dest staging : List Row) : List Row :=
  staging.foldl (upsertRow keyIdx) dest

/-- No two rows of the table carry the same primary-key value — the
invariant the destination's `PRIMARY KEY (dwjkey)` / `(dwvkey)`
declaration enforces. -/
def nodupKeys (keyIdx : Nat) (t : List Row) : Prop :=
  t.Pairwise fun a b => rowKey keyIdx a ≠ rowKey keyIdx b

/-- The two destination tables `SyncTab.sync_to_postgresql` writes
(src/sync.py lines 468-473 and 491-496). -/
structure PGState where
  jobs : List Row
  vehicles : List Row
deriving DecidableEq

/-- One run of `SyncTab.sync_to_postgresql` (src/sync.py lines 444-517),
restricted to its destination-visible effect.  Both tables' batches run
on one PostgreSQL connection inside one transaction; the only
`db_sync.conn.commit()` (line 509) comes after both batches.  A
destination-side error raised during a batch (modelled by
`jobsFail` / `vehiclesFail`) jumps to the `except` handler, the commit
never runs, and the `finally` block closes the connection, discarding
the whole uncommitted transaction.  Returns the committed destination
state and whether the run reported success. -/
def sync_to_postgresql (jobsKeyIdx vehKeyIdx : Nat) (jobsFail vehiclesFail : Bool)
    (stagingJobs stagingVehicles : List Row) (st : PGState) : PGState × Bool :=
  if jobsFail then (st, false)
  else
    -- uncommitted work of the jobs batch, visible only inside the transaction
    let jobs' := replicate jobsKeyIdx st.jobs stagingJobs
    if vehiclesFail then (st, false)
    else
      ({ jobs := jobs',
         vehicles := replicate vehKeyIdx st.vehicles stagingVehicles }, true)

/-- The change gate at the top of `BackupManagerTab.backup_now`
(src/sync.py lines 190-196) together with `execute_command`
(lines 24-35).  `probe` is the outcome of
`execute_command("adb shell stat -c '%Y' ...")`: `none` when the
command failed (non-zero exit or exception, `execute_command` returns
`None`), `some m` its stdout marker on success.  On failure the
function reports an error and aborts (no fetch); on success it proceeds
to the fetch unconditionally.  The `currentMarker` parameter is the
spec's notion of the previously seen marker; the code keeps no such
state and never compares the probed value with anything. -/
def has_changed (probe : Option String) (currentMarker : Option String) :
    Bool × Option String :=
  match probe with
  | none => (false, currentMarker)
  | some m => (true, some m)

/-- Observable outcome of the `adb pull` command run by `pull_database`:
whether it exited with status 0 (`execute_command` returned a result)
and what file content, if any, it left at `DB_PATH`. -/
structure PullEnv where
  cmdOk : Bool
  written : Option String
deriving DecidableEq

/-- `pull_database` (src/bca_data_extractor.py lines 37-47).  `staging`
is the content of `DB_PATH` before the call (`none` when absent).  The
function first removes `DB_PATH` when it exists, so the pull command
always runs against an absent staging slot; afterwards the slot holds
exactly what the command wrote.  It returns the resulting staging slot
and the success flag, which the code computes as
`result and os.path.exists(DB_PATH)`. -/
def pull_database (staging : Option String) (env : PullEnv) : Option String × Bool :=
  -- `if os.path.exists(DB_PATH): os.remove(DB_PATH)` empties the slot either way,
  -- so the post-pull slot content is `env.written`, independent of `staging`
  let after := env.written
  (after, env.cmdOk && after.isSome)

/-- State touched by `BackupManagerTab.delete_backup`: the
`backup_metadata.db` rows as (id, filename) pairs and the set of files
present in `BACKUP_FOLDER`. -/
structure CatalogState where
  entries : List (Nat × String)
  files : List String
deriving DecidableEq

/-- `BackupManagerTab.delete_backup` (src/sync.py lines 284-310) for a
selected catalog id.  `removeOk` is whether `os.remove` succeeds when
attempted.  Returns the new state and the message box text the user is
shown.  The `DELETE FROM backups WHERE id = ?` removes every row with
that id; the `SELECT` beforehand reads the first one. -/
def delete_backup (st : CatalogState) (backupId : Nat) (removeOk : Bool) :
    CatalogState × String :=
  match st.entries.lookup backupId with
  | none => (st, "Backup record not found")
  | some fname =>
    if fname ∈ st.files then
      if removeOk then
        ({ entries := st.entries.filter fun e => e.1 != backupId,
           files := st.files.erase fname }, "Backup deleted successfully")
      else (st, "Failed to delete backup file")
    else
      ({ entries := st.entries.filter fun e => e.1 != backupId,
         files := st.files }, "Backup deleted successfully")

/-- A snapshot file for the comparator: its tables by name (a name
missing from the list is a table the `SELECT * FROM` raises on). -/
abbrev Snapshot := List (String × List Row)

def lookupTable (db : Snapshot) (t : String) : Option (List Row) := db.lookup t

/-- First-column value of a row — the identity the comparator's dict
comprehensions key on (`row[0]`, src/sync.py lines 371-372; SQL result
rows are never empty). -/
def firstCol (r : Row) : String := r.headI

/-- The Python dict `{row[0]: row for row in rows}`: maps each
first-column value to the last row of the list carrying it. -/
def rowDict (rows : List Row) (k : String) : Option Row :=
  (rows.filter fun r => firstCol r == k).getLast?

/-- The key set of one side's dict, as a list (membership is what the
set operations below use). -/
def tableKeys (rows : List Row) : List String := rows.map firstCol

/-- `added = keys2 - keys1` (src/sync.py line 375), each key once. -/
def addedKeys (rows1 rows2 : List Row) : List String :=
  (tableKeys rows2).dedup.filter fun k => !(tableKeys rows1).contains k

/-- `removed = keys1 - keys2` (src/sync.py line 376), each key once. -/
def removedKeys (rows1 rows2 : List Row) : List String :=
  (tableKeys rows1).dedup.filter fun k => !(tableKeys rows2).contains k

/-- `common = keys1 & keys2` (src/sync.py line 377), each key once.
Python iterates the set in unspecified order; we fix first-occurrence
order on side 1 — every theorem below uses membership only. -/
def commonKeys (rows1 rows2 : List Row) : List String :=
  (tableKeys rows1).dedup.filter fun k => (tableKeys rows2).contains k

/-- Positional cell comparison of two rows,
`for i, (val1, val2) in enumerate(zip(row1, row2)): if val1 != val2`
(src/sync.py lines 385-387): pairs positions up to the shorter row. -/
def rowChanges (r1 r2 : Row) : List (Nat × String × String) :=
  (r1.zip r2).enum.filterMap fun p =>
    if p.2.1 ≠ p.2.2 then some (p.1, p.2.1, p.2.2) else none

/-- One line of the comparator's report, in the order the code appends
text to `diffs`. -/
inductive DiffEntry where
  | header (table : String)
  | added (table : String) (keys : List String)
  | removed (table : String) (keys : List String)
  | changed (table : String) (key : String) (idx : Nat) (oldVal newVal : String)
  | comparisonError (table : String)
deriving DecidableEq

/-- The per-table diff body (src/sync.py lines 371-388), emitted after
both `SELECT`s succeeded: the `Rows added` / `Rows removed` lines appear
only when the sets are nonempty, then one `changed` line per differing
cell of each common key's row pair.  For a key of `commonKeys` both
dict lookups are `some`; the fallback branch is unreachable. -/
def tableDiff (t : String) (rows1 rows2 : List Row) : List DiffEntry :=
  (if addedKeys rows1 rows2 ≠ [] then [DiffEntry.added t (addedKeys rows1 rows2)]
   else []) ++
  (if removedKeys rows1 rows2 ≠ [] then [DiffEntry.removed t (removedKeys rows1 rows2)]
   else []) ++
  (commonKeys rows1 rows2).flatMap fun k =>
    match rowDict rows1 k, rowDict rows2 k with
    | some r1, some r2 =>
        (rowChanges r1 r2).map fun c => DiffEntry.changed t k c.1 c.2.1 c.2.2
    | _, _ => []

/-- The comparator's loop over its fixed table list inside the single
`try` of `ComparatorTab.get_differences` (src/sync.py lines 360-392):
the header line is appended before the `SELECT`s, so when a table is
missing from either snapshot the header stays, the `except` handler
appends one error line, and the remaining tables are never visited. -/
def compareTables (db1 db2 : Snapshot) : List String → List DiffEntry
  | [] => []
  | t :: ts =>
    DiffEntry.header t ::
      match lookupTable db1 t, lookupTable db2 t with
      | some r1, some r2 => tableDiff t r1 r2 ++ compareTables db1 db2 ts
      | _, _ => [DiffEntry.comparisonError t]

/-- `ComparatorTab.get_differences` (src/sync.py lines 358-393): the
tables compared are exactly `DWJJOB` then `DWVVEH`. -/
def get_differences (db1 db2 : Snapshot) : List DiffEntry :=
  compareTables db1 db2 ["DWJJOB", "DWVVEH"]

/-! ### Basic lemmas about the upsert model -/

/-- When the keys agree (the situation in which the conflict branch
fires), overwriting the non-key columns yields exactly the incoming
row. -/
theorem mergeRow_eq_incoming (keyIdx : Nat) (old incoming : Row)
    (h : rowKey keyIdx old = rowKey keyIdx incoming) :
    mergeRow keyIdx old incoming = incoming := by
  apply List.ext_getElem
  · simp [mergeRow]
  · intro i h1 h2
    simp only [mergeRow, List.getElem_mapIdx]
    by_cases hik : i = keyIdx
    · subst hik
      have : incoming[i]? = some incoming[i] := List.getElem?_eq_getElem _
      have hold : old[i]? = some incoming[i] := by
        simpa [rowKey, this] using h
      simp [List.getD, hold]
    · simp [hik]

theorem upsertRow_eq_replace (keyIdx : Nat) (dest : List Row) (r : Row) :
    upsertRow keyIdx dest r =
      if ∃ d ∈ dest, rowKey keyIdx d = rowKey keyIdx r then
        dest.map fun d => if rowKey keyIdx d = rowKey keyIdx r then r else d
      else dest ++ [r] := by
  unfold upsertRow
  by_cases h : ∃ d ∈ dest, rowKey keyIdx d = rowKey keyIdx r
  · simp only [if_pos h]
    apply List.map_congr_left
    intro d _
    by_cases hk : rowKey keyIdx d = rowKey keyIdx r
    · simp [hk, mergeRow_eq_incoming keyIdx d r hk]
    · simp [hk]
  · simp [h]

/-- A single upsert preserves the destination's primary-key uniqueness. -/
theorem nodupKeys_upsertRow (keyIdx : Nat) (dest : List Row) (r : Row)
    (h : nodupKeys keyIdx dest) : nodupKeys keyIdx (upsertRow keyIdx dest r) := by
  rw [upsertRow_eq_replace]
  by_cases hex : ∃ d ∈ dest, rowKey keyIdx d = rowKey keyIdx r
  · simp only [if_pos hex]
    rw [nodupKeys, List.pairwise_map]
    refine h.imp_of_mem ?_
    intro a b _ _ hab
    by_cases ha : rowKey keyIdx a = rowKey keyIdx r <;>
      by_cases hb : rowKey keyIdx b = rowKey keyIdx r <;>
      simp_all
  · simp only [if_neg hex]
    rw [nodupKeys, List.pairwise_append]
    refine ⟨h, List.pairwise_singleton _ _, ?_⟩
    intro a ha b hb
    simp only [List.mem_singleton] at hb
    subst hb
    push_neg at hex
    exact hex a ha

theorem nodupKeys_replicate (keyIdx : Nat) (dest staging : List Row)
    (h : nodupKeys keyIdx dest) : nodupKeys keyIdx (replicate keyIdx dest staging) := by
  induction staging generalizing dest with
  | nil => exact h
  | cons s ss ih => exact ih _ (nodupKeys_upsertRow keyIdx dest s h)

/-- Every key present in the destination is still present after a single
upsert. -/
theorem upsertRow_key_survives (keyIdx : Nat) (dest : List Row) (r d : Row)
    (hd : d ∈ dest) :
    ∃ d' ∈ upsertRow keyIdx dest r, rowKey keyIdx d' = rowKey keyIdx d := by
  rw [upsertRow_eq_replace]
  by_cases hex : ∃ d ∈ dest, rowKey keyIdx d = rowKey keyIdx r
  · simp only [if_pos hex]
    by_cases hk : rowKey keyIdx d = rowKey keyIdx r
    · exact ⟨r, List.mem_map.mpr ⟨d, hd, by simp [hk]⟩, hk.symm⟩
    · exact ⟨d, List.mem_map.mpr ⟨d, hd, by simp [hk]⟩, rfl⟩
  · simp only [if_neg hex]
    exact ⟨d, List.mem_append_left _ hd, rfl⟩

/-- A destination row whose key no staging-side row carries passes
through a single upsert untouched. -/
theorem upsertRow_untouched (keyIdx : Nat) (dest : List Row) (r d : Row)
    (hd : d ∈ dest) (hk : rowKey keyIdx r ≠ rowKey keyIdx d) :
    d ∈ upsertRow keyIdx dest r := by
  rw [upsertRow_eq_replace]
  by_cases hex : ∃ d ∈ dest, rowKey keyIdx d = rowKey keyIdx r
  · simp only [if_pos hex]
    refine List.mem_map.mpr ⟨d, hd, ?_⟩
    have hne : rowKey keyIdx d ≠ rowKey keyIdx r := fun h => hk h.symm
    simp [hne]
  · simp only [if_neg hex]
    exact List.mem_append_left _ hd

/-- The upserted row itself is always present afterwards. -/
theorem self_mem_upsertRow (keyIdx : Nat) (dest : List Row) (r : Row) :
    r ∈ upsertRow keyIdx dest r := by
  rw [upsertRow_eq_replace]
  by_cases hex : ∃ d ∈ dest, rowKey keyIdx d = rowKey keyIdx r
  · simp only [if_pos hex]
    obtain ⟨d, hd, hk⟩ := hex
    exact List.mem_map.mpr ⟨d, hd, by simp [hk]⟩
  · simp only [if_neg hex]
    exact List.mem_append_right _ (List.mem_singleton_self r)

/-- A row whose key is absent from all remaining staging rows stays in
the table across the rest of the batch. -/
theorem mem_replicate_of_untouched (keyIdx : Nat) (dest staging : List Row) (d : Row)
    (hd : d ∈ dest) (hk : ∀ s ∈ staging, rowKey keyIdx s ≠ rowKey keyIdx d) :
    d ∈ replicate keyIdx dest staging := by
  induction staging generalizing dest with
  | nil => exact hd
  | cons s ss ih =>
    exact ih _ (upsertRow_untouched keyIdx dest s d hd (hk s (.head ss)))
      fun t ht => hk t (.tail s ht)

/-- Every key present in the destination before the batch is still
present afterwards. -/
theorem replicate_key_survives (keyIdx : Nat) (dest staging : List Row) (d : Row)
    (hd : d ∈ dest) :
    ∃ d' ∈ replicate keyIdx dest staging, rowKey keyIdx d' = rowKey keyIdx d := by
  induction staging generalizing dest d with
  | nil => exact ⟨d, hd, rfl⟩
  | cons s ss ih =>
    obtain ⟨d', hd', hk'⟩ := upsertRow_key_survives keyIdx dest s d hd
    obtain ⟨d'', hd'', hk''⟩ := ih _ d' hd'
    exact ⟨d'', hd'', hk''.trans hk'⟩

/-- When the staging rows carry pairwise-distinct keys, every staging
row is literally present in the destination after the batch. -/
theorem staging_mem_replicate (keyIdx : Nat) (dest staging : List Row)
    (hstag : nodupKeys keyIdx staging) :
    ∀ s ∈ staging, s ∈ replicate keyIdx dest staging := by
  induction staging generalizing dest with
  | nil => intro s hs; cases hs
  | cons t ts ih =>
    rw [nodupKeys, List.pairwise_cons] at hstag
    intro s hs
    cases hs with
    | head =>
      exact mem_replicate_of_untouched keyIdx _ ts t
        (self_mem_upsertRow keyIdx dest t)
        fun u hu => (hstag.1 u hu).symm
    | tail _ hs => exact ih _ hstag.2 s hs

/-- Upserting a row already literally present in a key-unique table is
a no-op. -/
theorem upsertRow_mem_eq (keyIdx : Nat) (dest : List Row) (r : Row)
    (hdest : nodupKeys keyIdx dest) (hr : r ∈ dest) :
    upsertRow keyIdx dest r = dest := by
  rw [upsertRow_eq_replace]
  have hex : ∃ d ∈ dest, rowKey keyIdx d = rowKey keyIdx r := ⟨r, hr, rfl⟩
  simp only [if_pos hex]
  have : ∀ d ∈ dest, (if rowKey keyIdx d = rowKey keyIdx r then r else d) = d := by
    intro d hd
    by_cases hk : rowKey keyIdx d = rowKey keyIdx r
    · have : d = r := by
        by_contra hne
        exact (List.Pairwise.forall (fun a b h => (h ∘ Eq.symm)) hdest hd hr hne) hk
      simp [hk, this]
    · simp [hk]
  rw [List.map_congr_left this]
  simp

/-- A batch whose rows are all already present in a key-unique table
leaves the table unchanged. -/
theorem replicate_subset_eq (keyIdx : Nat) (dest staging : List Row)
    (hdest : nodupKeys keyIdx dest) (hsub : ∀ s ∈ staging, s ∈ dest) :
    replicate keyIdx dest staging = dest := by
  induction staging with
  | nil => rfl
  | cons s ss ih =>
    have h1 : upsertRow keyIdx dest s = dest :=
      upsertRow_mem_eq keyIdx dest s hdest (hsub s (.head ss))
    show replicate keyIdx (upsertRow keyIdx dest s) ss = dest
    rw [h1]
    exact ih fun t ht => hsub t (.tail s ht)

/-- A single upsert never shrinks the destination table. -/
theorem length_le_upsertRow (keyIdx : Nat) (dest : List Row) (r : Row) :
    dest.length ≤ (upsertRow keyIdx dest r).length := by
  rw [upsertRow_eq_replace]
  split <;> simp

/-- A batch never shrinks the destination table. -/
theorem length_le_replicate (keyIdx : Nat) (dest staging : List Row) :
    dest.length ≤ (replicate keyIdx dest staging).length := by
  induction staging generalizing dest with
  | nil => exact Nat.le_refl _
  | cons s ss ih =>
    exact (length_le_upsertRow keyIdx dest s).trans (ih _)

/-! ### Claim theorems: replication engine -/

/-- C1.  Upsert correctness: when destination and staging each carry
pairwise-distinct primary keys, after `replicate` every destination row
carrying the key of a staging row equals that staging row exactly —
full-row overwrite with the source's text values. -/
theorem upsert_correctness (keyIdx : Nat) (dest staging : List Row) (d s r : Row)
    (hdest : nodupKeys keyIdx dest) (hstag : nodupKeys keyIdx staging)
    (hd : d ∈ dest) (hs : s ∈ staging)
    (hds : rowKey keyIdx d = rowKey keyIdx s)
    (hr : r ∈ replicate keyIdx dest staging)
    (hrs : rowKey keyIdx r = rowKey keyIdx s) : r = s := by
  have hsmem : s ∈ replicate keyIdx dest staging :=
    staging_mem_replicate keyIdx dest staging hstag s hs
  have hnodup := nodupKeys_replicate keyIdx dest staging hdest
  by_contra hne
  exact List.Pairwise.forall (fun a b h => h ∘ Eq.symm) hnodup hr hsmem hne hrs

/-- Witness for C1 at a concrete destination and staging table. -/
theorem upsert_correctness_witness : (["K", "new"] : Row) = ["K", "new"] :=
  upsert_correctness 0 [["K", "old"]] [["K", "new"]] ["K", "old"] ["K", "new"]
    ["K", "new"] (by simp [nodupKeys]) (by simp [nodupKeys]) (by simp) (by simp)
    rfl (by decide) rfl

/-- C2.  Idempotent replication: replaying the same staging content a
second time leaves the destination table literally unchanged — same row
count, same row contents. -/
theorem idempotent_replication (keyIdx : Nat) (dest staging : List Row)
    (hdest : nodupKeys keyIdx dest) (hstag : nodupKeys keyIdx staging) :
    replicate keyIdx (replicate keyIdx dest staging) staging =
      replicate keyIdx dest staging :=
  replicate_subset_eq keyIdx _ staging
    (nodupKeys_replicate keyIdx dest staging hdest)
    (staging_mem_replicate keyIdx dest staging hstag)

/-- Witness for C2 at a concrete destination and staging table. -/
theorem idempotent_replication_witness :
    replicate 0 (replicate 0 [["K", "a"]] [["K", "b"], ["L", "c"]])
        [["K", "b"], ["L", "c"]] =
      replicate 0 [["K", "a"]] [["K", "b"], ["L", "c"]] :=
  idempotent_replication 0 [["K", "a"]] [["K", "b"], ["L", "c"]]
    (by simp [nodupKeys]) (by unfold nodupKeys; decide)

/-- C8.  No deletions by replication: every pre-existing destination
key is still present after the batch, a destination row whose key no
staging row carries survives verbatim, and the row count never
shrinks. -/
theorem no_deletions (keyIdx : Nat) (dest staging : List Row) (d : Row)
    (hd : d ∈ dest) :
    (∃ d' ∈ replicate keyIdx dest staging, rowKey keyIdx d' = rowKey keyIdx d) ∧
    ((∀ s ∈ staging, rowKey keyIdx s ≠ rowKey keyIdx d) →
      d ∈ replicate keyIdx dest staging) ∧
    dest.length ≤ (replicate keyIdx dest staging).length :=
  ⟨replicate_key_survives keyIdx dest staging d hd,
   fun h => mem_replicate_of_untouched keyIdx dest staging d hd h,
   length_le_replicate keyIdx dest staging⟩

/-- Witness for C8: a destination row whose key is absent from staging
is untouched by the batch. -/
theorem no_deletions_witness :
    (["K", "a"] : Row) ∈ replicate 0 [["K", "a"]] [["L", "b"]] :=
  (no_deletions 0 [["K", "a"]] [["L", "b"]] ["K", "a"] (by simp)).2.1 (by decide)

/-- C3 counterexample.  With an empty destination, staging jobs
`[["J1", "x"]]` and a destination-side error during the vehicles batch
only, the committed jobs table is still empty: the jobs batch — which
by itself would have produced `[["J1", "x"]]` — was rolled back along
with the vehicles batch, because both batches share the one transaction
committed at src/sync.py line 509.  This refutes the claim that each
table's batch is its own independent transaction. -/
theorem per_table_transaction_counterexample :
    (sync_to_postgresql 0 0 false true [["J1", "x"]] [] ⟨[], []⟩).1.jobs = [] ∧
    replicate 0 ([] : List Row) [["J1", "x"]] = [["J1", "x"]] ∧
    ([] : List Row) ≠ [["J1", "x"]] := by
  refine ⟨rfl, by decide, by simp⟩

/-- C3 amended.  Both tables' batches run in one shared transaction
with a single commit after both: an error during either batch aborts
the whole run and leaves the destination exactly as it was (both
batches rolled back); when neither batch errors, both tables are
replicated and committed together. -/
theorem single_transaction_sync (jk vk : Nat) (fj fv : Bool)
    (sj sv : List Row) (st : PGState) :
    ((fj || fv) = true → sync_to_postgresql jk vk fj fv sj sv st = (st, false)) ∧
    ((fj || fv) = false →
      sync_to_postgresql jk vk fj fv sj sv st =
        ({ jobs := replicate jk st.jobs sj,
           vehicles := replicate vk st.vehicles sv }, true)) := by
  constructor
  · intro h
    cases fj <;> cases fv <;> simp_all [sync_to_postgresql]
  · intro h
    cases fj <;> cases fv <;> simp_all [sync_to_postgresql]

/-- Witness for the amended C3: a vehicles-side error leaves the whole
destination untouched. -/
theorem single_transaction_sync_witness :
    sync_to_postgresql 0 0 false true [["J1", "x"]] [] ⟨[], []⟩ =
      (⟨[], []⟩, false) :=
  (single_transaction_sync 0 0 false true [["J1", "x"]] [] ⟨[], []⟩).1 rfl

/-! ### Claim theorems: change detection, fetch, catalog delete -/

/-- C6 counterexample.  A successful probe returning marker "100" while
the current marker is already "100": the code proceeds (reports
changed), although the claim's triggering condition — the new marker
differs from the current one, or the current one is unset — is false.
`backup_now` records no marker and never compares one. -/
theorem change_detection_counterexample :
    (has_changed (some "100") (some "100")).1 = true ∧
    ¬ ((some "100" : Option String) ≠ some "100" ∨
        (some "100" : Option String) = none) :=
  ⟨rfl, by simp⟩

/-- C6 amended.  `has_changed` reports changed=false whenever retrieval
of the marker fails, and changed=true with the newly probed marker
whenever retrieval succeeds — regardless of the current marker, which
the code never compares against. -/
theorem change_detection_amended (m : String) (cur : Option String) :
    has_changed none cur = (false, cur) ∧ has_changed (some m) cur = (true, some m) :=
  ⟨rfl, rfl⟩

/-- C7.  Fetch clears stale staging: after `pull_database` the staging
slot holds exactly what the pull command wrote — never the pre-existing
copy, whatever it was — and the call reports success precisely when the
command succeeded and the staging file exists. -/
theorem fetch_clears_stale (staging : Option String) (env : PullEnv) (old : String) :
    (pull_database staging env).1 = env.written ∧
    (pull_database staging env).2 = (env.cmdOk && env.written.isSome) ∧
    pull_database (some old) env = pull_database none env :=
  ⟨rfl, rfl, rfl⟩

/-- C9 counterexample.  Catalog entry `(1, "b.db")` with the backup
file absent: delete removes the row but shows the plain
"Backup deleted successfully" message — byte-identical to the message
of the run in which the file exists and is removed.  The file's
absence is not reported anywhere. -/
theorem catalog_delete_counterexample :
    (delete_backup ⟨[(1, "b.db")], []⟩ 1 true).2 = "Backup deleted successfully" ∧
    (delete_backup ⟨[(1, "b.db")], ["b.db"]⟩ 1 true).2 =
      "Backup deleted successfully" ∧
    (delete_backup ⟨[(1, "b.db")], []⟩ 1 true).1.entries = [] := by
  refine ⟨?_, ?_, ?_⟩ <;> decide

/-- C9 amended.  When the catalog row exists but the backup file is
absent, delete still removes the catalog row and reports the ordinary
success message — the absence is not separately reported.  When row and
file both exist and the file removal succeeds, both are removed. -/
theorem catalog_delete_best_effort (st : CatalogState) (backupId : Nat)
    (fname : String) (ok : Bool)
    (hlk : st.entries.lookup backupId = some fname) :
    (fname ∉ st.files →
      delete_backup st backupId ok =
        ({ entries := st.entries.filter fun e => e.1 != backupId,
           files := st.files }, "Backup deleted successfully")) ∧
    (fname ∈ st.files → ok = true →
      delete_backup st backupId ok =
        ({ entries := st.entries.filter fun e => e.1 != backupId,
           files := st.files.erase fname }, "Backup deleted successfully")) := by
  constructor
  · intro habs
    simp [delete_backup, hlk, habs]
  · intro hmem hok
    simp [delete_backup, hlk, hmem, hok]

/-- Witness for the amended C9: deleting an entry whose file is gone
still drops the catalog row and reports plain success. -/
theorem catalog_delete_best_effort_witness :
    delete_backup ⟨[(2, "c.db")], []⟩ 2 false =
      (⟨[], []⟩, "Backup deleted successfully") :=
  ((catalog_delete_best_effort ⟨[(2, "c.db")], []⟩ 2 "c.db" false rfl).1
      (by simp)).trans (by decide)

/-! ### Lemmas about the comparator -/

/-- Characterization of the positional cell comparison: a change record
exists precisely for the positions both rows possess whose values
differ, with no type coercion. -/
theorem mem_rowChanges_iff (r1 r2 : Row) (i : Nat) (v1 v2 : String) :
    (i, v1, v2) ∈ rowChanges r1 r2 ↔
      r1[i]? = some v1 ∧ r2[i]? = some v2 ∧ v1 ≠ v2 := by
  simp only [rowChanges, List.mem_filterMap]
  constructor
  · rintro ⟨⟨j, a, b⟩, hmem, hfn⟩
    by_cases hab : a ≠ b
    · rw [if_pos hab] at hfn
      obtain ⟨rfl, rfl, rfl⟩ : j = i ∧ a = v1 ∧ b = v2 := by
        simpa [Prod.ext_iff] using hfn
      rw [List.mk_mem_enum_iff_getElem?] at hmem
      rw [List.getElem?_zip_eq_some] at hmem
      exact ⟨hmem.1, hmem.2, hab⟩
    · rw [if_neg hab] at hfn
      cases hfn
  · rintro ⟨h1, h2, hne⟩
    refine ⟨(i, v1, v2), ?_, if_pos hne⟩
    rw [List.mk_mem_enum_iff_getElem?, List.getElem?_zip_eq_some]
    exact ⟨h1, h2⟩

/-- A successful dict lookup pins the row's first column and puts the
key among the table's keys. -/
theorem rowDict_eq_some (rows : List Row) (k : String) (r : Row)
    (h : rowDict rows k = some r) :
    firstCol r = k ∧ r ∈ rows ∧ k ∈ tableKeys rows := by
  have hr : r ∈ rows.filter fun r => firstCol r == k :=
    List.mem_of_mem_getLast? h
  rw [List.mem_filter] at hr
  have hk : firstCol r = k := by simpa using hr.2
  exact ⟨hk, hr.1, hk ▸ List.mem_map_of_mem firstCol hr.1⟩

theorem mem_addedKeys_iff (rows1 rows2 : List Row) (k : String) :
    k ∈ addedKeys rows1 rows2 ↔ k ∈ tableKeys rows2 ∧ k ∉ tableKeys rows1 := by
  simp [addedKeys, List.mem_filter]

theorem mem_removedKeys_iff (rows1 rows2 : List Row) (k : String) :
    k ∈ removedKeys rows1 rows2 ↔ k ∈ tableKeys rows1 ∧ k ∉ tableKeys rows2 := by
  simp [removedKeys, List.mem_filter]

theorem mem_commonKeys_iff (rows1 rows2 : List Row) (k : String) :
    k ∈ commonKeys rows1 rows2 ↔ k ∈ tableKeys rows1 ∧ k ∈ tableKeys rows2 := by
  simp [commonKeys, List.mem_filter]

/-- A change record for key `k` appears in the table's diff body
exactly when the positional comparison of the two dict rows for `k`
produces it. -/
theorem changed_mem_tableDiff_iff (t k : String) (rows1 rows2 : List Row)
    (r1 r2 : Row) (h1 : rowDict rows1 k = some r1) (h2 : rowDict rows2 k = some r2)
    (i : Nat) (v1 v2 : String) :
    DiffEntry.changed t k i v1 v2 ∈ tableDiff t rows1 rows2 ↔
      (i, v1, v2) ∈ rowChanges r1 r2 := by
  have hck : k ∈ commonKeys rows1 rows2 :=
    (mem_commonKeys_iff rows1 rows2 k).mpr
      ⟨(rowDict_eq_some rows1 k r1 h1).2.2, (rowDict_eq_some rows2 k r2 h2).2.2⟩
  unfold tableDiff
  simp only [List.mem_append, List.mem_flatMap]
  constructor
  · rintro ((hmem | hmem) | ⟨k', hk', hmem⟩)
    · split at hmem <;> simp_all
    · split at hmem <;> simp_all
    · rcases hA : rowDict rows1 k' with _ | r1'
      · rw [hA] at hmem
        cases hmem
      · rcases hB : rowDict rows2 k' with _ | r2'
        · rw [hA, hB] at hmem
          cases hmem
        · rw [hA, hB] at hmem
          simp only [List.mem_map] at hmem
          obtain ⟨⟨j, a, b⟩, hc, heq⟩ := hmem
          injection heq with ht hk2 hj ha2 hb2
          subst hk2
          subst hj
          subst ha2
          subst hb2
          rw [h1] at hA
          rw [h2] at hB
          injection hA with e1
          injection hB with e2
          subst e1
          subst e2
          exact hc
  · intro hc
    refine Or.inr ⟨k, hck, ?_⟩
    rw [h1, h2]
    exact List.mem_map.mpr ⟨(i, v1, v2), hc, rfl⟩

/-! ### Claim theorems: comparator -/

/-- C4.  Comparator diff computation: `added` is exactly the keys of
snapshot 2 absent from snapshot 1, `removed` the reverse; nonempty sets
are reported; and for a key with a dict row on both sides the report
contains a change record for position `i` with values `(v1, v2)`
precisely when both rows have position `i` with those exact values and
they differ — positional, no type coercion. -/
theorem comparator_diff_correct (t k : String) (rows1 rows2 : List Row)
    (r1 r2 : Row)
    (h1 : rowDict rows1 k = some r1) (h2 : rowDict rows2 k = some r2) :
    (∀ k', k' ∈ addedKeys rows1 rows2 ↔
        k' ∈ tableKeys rows2 ∧ k' ∉ tableKeys rows1) ∧
    (∀ k', k' ∈ removedKeys rows1 rows2 ↔
        k' ∈ tableKeys rows1 ∧ k' ∉ tableKeys rows2) ∧
    (addedKeys rows1 rows2 ≠ [] →
      DiffEntry.added t (addedKeys rows1 rows2) ∈ tableDiff t rows1 rows2) ∧
    (removedKeys rows1 rows2 ≠ [] →
      DiffEntry.removed t (removedKeys rows1 rows2) ∈ tableDiff t rows1 rows2) ∧
    (∀ i v1 v2, DiffEntry.changed t k i v1 v2 ∈ tableDiff t rows1 rows2 ↔
        r1[i]? = some v1 ∧ r2[i]? = some v2 ∧ v1 ≠ v2) := by
  refine ⟨mem_addedKeys_iff rows1 rows2, mem_removedKeys_iff rows1 rows2, ?_, ?_, ?_⟩
  · intro hne
    unfold tableDiff
    simp [hne]
  · intro hne
    unfold tableDiff
    simp [hne]
  · intro i v1 v2
    rw [changed_mem_tableDiff_iff t k rows1 rows2 r1 r2 h1 h2 i v1 v2]
    exact mem_rowChanges_iff r1 r2 i v1 v2

/-- Witness for C4 at the spec's own scenario: vehicles `V1 Ford` vs
`V1 Toyota, V2 Honda` — the `Ford → Toyota` change at column 1 is
reported. -/
theorem comparator_diff_correct_witness :
    DiffEntry.changed "DWVVEH" "V1" 1 "Ford" "Toyota" ∈
      tableDiff "DWVVEH" [["V1", "Ford"]] [["V1", "Toyota"], ["V2", "Honda"]] :=
  ((comparator_diff_correct "DWVVEH" "V1" [["V1", "Ford"]]
      [["V1", "Toyota"], ["V2", "Honda"]] ["V1", "Ford"] ["V1", "Toyota"]
      (by decide) (by decide)).2.2.2.2 1 "Ford" "Toyota").mpr (by decide)

/-- C10.  Comparator arity truncation: for a common key whose two rows
have different lengths, every reported change has a position below the
shorter row's length, no change is ever reported at or beyond it, and
every differing position both rows possess is still reported — the
longer row's surplus trailing columns are silently ignored. -/
theorem comparator_arity_truncation (t k : String) (rows1 rows2 : List Row)
    (r1 r2 : Row)
    (h1 : rowDict rows1 k = some r1) (h2 : rowDict rows2 k = some r2)
    (hlen : r1.length ≠ r2.length) :
    (∀ i v1 v2, DiffEntry.changed t k i v1 v2 ∈ tableDiff t rows1 rows2 →
        i < min r1.length r2.length) ∧
    (∀ i v1 v2, min r1.length r2.length ≤ i →
        DiffEntry.changed t k i v1 v2 ∉ tableDiff t rows1 rows2) ∧
    (∀ i v1 v2, r1[i]? = some v1 → r2[i]? = some v2 → v1 ≠ v2 →
        DiffEntry.changed t k i v1 v2 ∈ tableDiff t rows1 rows2) := by
  have key : ∀ i v1 v2, DiffEntry.changed t k i v1 v2 ∈ tableDiff t rows1 rows2 ↔
      r1[i]? = some v1 ∧ r2[i]? = some v2 ∧ v1 ≠ v2 := fun i v1 v2 =>
    (changed_mem_tableDiff_iff t k rows1 rows2 r1 r2 h1 h2 i v1 v2).trans
      (mem_rowChanges_iff r1 r2 i v1 v2)
  refine ⟨?_, ?_, ?_⟩
  · intro i v1 v2 hmem
    obtain ⟨ha, hb, _⟩ := (key i v1 v2).mp hmem
    obtain ⟨hia, -⟩ := List.getElem?_eq_some_iff.mp ha
    obtain ⟨hib, -⟩ := List.getElem?_eq_some_iff.mp hb
    exact lt_min hia hib
  · intro i v1 v2 hge hmem
    obtain ⟨ha, hb, -⟩ := (key i v1 v2).mp hmem
    obtain ⟨hia, -⟩ := List.getElem?_eq_some_iff.mp ha
    obtain ⟨hib, -⟩ := List.getElem?_eq_some_iff.mp hb
    exact absurd (lt_min hia hib) (not_lt.mpr hge)
  · intro i v1 v2 ha hb hne
    exact (key i v1 v2).mpr ⟨ha, hb, hne⟩

/-- Witness for C10 with rows of lengths 2 and 3: no change is
reported at the surplus position 2. -/
theorem comparator_arity_truncation_witness :
    DiffEntry.changed "DWVVEH" "V1" 2 "a" "b" ∉
      tableDiff "DWVVEH" [["V1", "a"]] [["V1", "a", "b"]] :=
  (comparator_arity_truncation "DWVVEH" "V1" [["V1", "a"]] [["V1", "a", "b"]]
      ["V1", "a"] ["V1", "a", "b"] (by decide) (by decide) (by decide)).2.1
    2 "a" "b" (by decide)

/-- C5 counterexample.  Snapshot A lacks `DWJJOB`; both snapshots carry
`DWVVEH` with a differing row.  The report is just the `DWJJOB` header
and one error line: the `DWVVEH` value change — which the per-row
comparison would produce — is never reported, so the missing table IS
fatal to the rest of the comparison. -/
theorem comparator_containment_counterexample :
    get_differences [("DWVVEH", [["V1", "a"]])]
        [("DWJJOB", [["J1"]]), ("DWVVEH", [["V1", "b"]])] =
      [DiffEntry.header "DWJJOB", DiffEntry.comparisonError "DWJJOB"] ∧
    lookupTable [("DWVVEH", [["V1", "a"]])] "DWVVEH" = some [["V1", "a"]] ∧
    lookupTable [("DWJJOB", [["J1"]]), ("DWVVEH", [["V1", "b"]])] "DWVVEH" =
      some [["V1", "b"]] ∧
    DiffEntry.changed "DWVVEH" "V1" 1 "a" "b" ∉
      get_differences [("DWVVEH", [["V1", "a"]])]
        [("DWJJOB", [["J1"]]), ("DWVVEH", [["V1", "b"]])] ∧
    (1, "a", "b") ∈ rowChanges ["V1", "a"] ["V1", "b"] := by
  refine ⟨?_, ?_, ?_, ?_, ?_⟩ <;> decide

/-- C5 amended.  A table missing from either snapshot aborts the
comparison at that table: its header and one error line are emitted and
no later table is compared; tables compared before it keep their
results. -/
theorem comparator_error_aborts (db1 db2 : Snapshot) (r1 r2 : List Row) :
    ((lookupTable db1 "DWJJOB" = none ∨ lookupTable db2 "DWJJOB" = none) →
      get_differences db1 db2 =
        [DiffEntry.header "DWJJOB", DiffEntry.comparisonError "DWJJOB"]) ∧
    (lookupTable db1 "DWJJOB" = some r1 → lookupTable db2 "DWJJOB" = some r2 →
      (lookupTable db1 "DWVVEH" = none ∨ lookupTable db2 "DWVVEH" = none) →
      get_differences db1 db2 =
        DiffEntry.header "DWJJOB" ::
          (tableDiff "DWJJOB" r1 r2 ++
            [DiffEntry.header "DWVVEH", DiffEntry.comparisonError "DWVVEH"])) := by
  constructor
  · intro h
    unfold get_differences compareTables
    rcases h with h | h
    · rw [h]
    · rw [h]
      cases lookupTable db1 "DWJJOB" <;> rfl
  · intro hj1 hj2 hv
    unfold get_differences compareTables
    rw [hj1, hj2]
    show DiffEntry.header "DWJJOB" ::
        (tableDiff "DWJJOB" r1 r2 ++ compareTables db1 db2 ["DWVVEH"]) =
      DiffEntry.header "DWJJOB" ::
        (tableDiff "DWJJOB" r1 r2 ++
          [DiffEntry.header "DWVVEH", DiffEntry.comparisonError "DWVVEH"])
    unfold compareTables
    rcases hv with h | h
    · rw [h]
    · rw [h]
      cases lookupTable db1 "DWVVEH" <;> rfl

/-- Witness for the amended C5: with `DWJJOB` missing from both sides
the report stops after its error line. -/
theorem comparator_error_aborts_witness :
    get_differences [("DWVVEH", [["V1", "a"]])] [("DWVVEH", [["V1", "b"]])] =
      [DiffEntry.header "DWJJOB", DiffEntry.comparisonError "DWJJOB"] :=
  (comparator_error_aborts [("DWVVEH", [["V1", "a"]])] [("DWVVEH", [["V1", "b"]])]
      [] []).1 (Or.inl (by decide))

end BCA
